import Mathlib

/-!
Verification of `detect_eucalyptus.py` (eucalyptus sprout detection pipeline).

The numeric core of the script is embedded shallowly over `ℚ`:
`calculate_gini` and `calculate_pv50` are direct translations of the two
Python functions, and the pipeline fragments of `main` (geometry projection,
area filtering, coverage estimation, metric-record assembly) are translated
as pure functions.  External collaborators (UTM-CRS estimation and
reprojection, which live in geopandas) are taken as parameters.
-/

namespace DetectEucalyptus

/-- `calculate_gini` from `src/detect_eucalyptus.py` (lines 11-16):
sort the areas ascending, build the index vector `1..n`, and return
`sum((2*index - n - 1) * sorted_areas) / (n * sum(sorted_areas))`. -/
def calculate_gini (areas : List ℚ) : ℚ :=
  let sorted_areas := List.insertionSort (· ≤ ·) areas
  let n : ℕ := areas.length
  let index : List ℕ := List.range' 1 n
  (List.zipWith (fun (i : ℕ) (a : ℚ) => (2 * (i : ℚ) - (n : ℚ) - 1) * a)
      index sorted_areas).sum
    / ((n : ℚ) * sorted_areas.sum)

/-- `calculate_pv50` from `src/detect_eucalyptus.py` (lines 18-24):
sort the areas ascending, take the smallest `len // 2` of them, and return
their share of the total sum as a percentage. -/
def calculate_pv50 (areas : List ℚ) : ℚ :=
  let sorted_areas := List.insertionSort (· ≤ ·) areas
  let half_n : ℕ := sorted_areas.length / 2
  let sum_smallest_50 := (sorted_areas.take half_n).sum
  let total_sum := sorted_areas.sum
  (sum_smallest_50 / total_sum) * 100

/-! ### Sum bridges between `List` computations and `Finset.range` sums -/

lemma sum_eq_sum_getD (l : List ℚ) :
    l.sum = ∑ i ∈ Finset.range l.length, l.getD i 0 := by
  induction l with
  | nil => simp
  | cons a t ih =>
      rw [List.sum_cons, List.length_cons, Finset.sum_range_succ']
      simp only [List.getD_cons_succ, List.getD_cons_zero]
      rw [← ih, add_comm]

lemma sum_zipWith_range' (f : ℕ → ℚ → ℚ) :
    ∀ (l : List ℚ) (k : ℕ),
      (List.zipWith f (List.range' k l.length) l).sum
        = ∑ i ∈ Finset.range l.length, f (k + i) (l.getD i 0)
  | [], k => by simp
  | a :: t, k => by
      rw [List.length_cons, List.range'_succ, List.zipWith_cons_cons, List.sum_cons,
        sum_zipWith_range' f t (k + 1), Finset.sum_range_succ']
      simp only [List.getD_cons_succ, List.getD_cons_zero, Nat.add_zero]
      rw [add_comm]
      congr 1
      refine Finset.sum_congr rfl fun i _ => ?_
      rw [show k + 1 + i = k + (i + 1) by omega]

lemma sum_zipWith_range'_len (f : ℕ → ℚ → ℚ) (l : List ℚ) (k n : ℕ)
    (hn : l.length = n) :
    (List.zipWith f (List.range' k n) l).sum
      = ∑ i ∈ Finset.range n, f (k + i) (l.getD i 0) := by
  subst hn; exact sum_zipWith_range' f l k

lemma sum_eq_sum_getD_len (l : List ℚ) (n : ℕ) (hn : l.length = n) :
    l.sum = ∑ i ∈ Finset.range n, l.getD i 0 := by
  subst hn; exact sum_eq_sum_getD l

/-- Shared description of `calculate_gini` as a quotient of `Finset.range` sums
over the sorted list. -/
lemma calculate_gini_eq (areas : List ℚ) :
    calculate_gini areas =
      (∑ i ∈ Finset.range areas.length,
          (2 * ((i : ℚ) + 1) - (areas.length : ℚ) - 1)
            * (List.insertionSort (· ≤ ·) areas).getD i 0)
        / ((areas.length : ℚ)
            * ∑ i ∈ Finset.range areas.length,
                (List.insertionSort (· ≤ ·) areas).getD i 0) := by
  have hlen : (List.insertionSort (· ≤ ·) areas).length = areas.length :=
    List.length_insertionSort _ _
  simp only [calculate_gini]
  rw [sum_zipWith_range'_len _ _ _ _ hlen, sum_eq_sum_getD_len _ _ hlen]
  congr 1
  refine Finset.sum_congr rfl fun i _ => ?_
  push_cast
  ring

/-- Shared description of `calculate_pv50` with the `floor (n/2)` count taken
from the unsorted input length. -/
lemma calculate_pv50_eq (areas : List ℚ) :
    calculate_pv50 areas
      = ((List.insertionSort (· ≤ ·) areas).take (areas.length / 2)).sum
          / (List.insertionSort (· ≤ ·) areas).sum * 100 := by
  simp only [calculate_pv50, List.length_insertionSort]

/-- Claim C1: for every non-empty area list, the gini computation sorts the
areas ascending into `a_1 .. a_n` and returns exactly the discrete
rank-weighted formula `(Σ_i (2 i − n − 1) · a_i) / (n · Σ_i a_i)`
(1-indexed, here written with 0-based indices as `2 (i+1) − n − 1`). -/
theorem calculate_gini_rank_formula (areas : List ℚ) (h : areas ≠ []) :
    calculate_gini areas =
      (∑ i ∈ Finset.range areas.length,
          (2 * ((i : ℚ) + 1) - (areas.length : ℚ) - 1)
            * (List.insertionSort (· ≤ ·) areas).getD i 0)
        / ((areas.length : ℚ)
            * ∑ i ∈ Finset.range areas.length,
                (List.insertionSort (· ≤ ·) areas).getD i 0) :=
  calculate_gini_eq areas

/-- Witness for C1: the rank-weighted formula instantiated at `[1, 2, 3]`. -/
theorem calculate_gini_rank_formula_witness :
    ([(1 : ℚ), 2, 3] ≠ [])
    ∧ calculate_gini [(1 : ℚ), 2, 3]
        = (∑ i ∈ Finset.range [(1 : ℚ), 2, 3].length,
            (2 * ((i : ℚ) + 1) - ([(1 : ℚ), 2, 3].length : ℚ) - 1)
              * (List.insertionSort (· ≤ ·) [(1 : ℚ), 2, 3]).getD i 0)
          / (([(1 : ℚ), 2, 3].length : ℚ)
              * ∑ i ∈ Finset.range [(1 : ℚ), 2, 3].length,
                  (List.insertionSort (· ≤ ·) [(1 : ℚ), 2, 3]).getD i 0) :=
  ⟨by decide, calculate_gini_rank_formula [(1 : ℚ), 2, 3] (by decide)⟩

/-- Claim C2: for every non-empty area list, `calculate_pv50` sorts the areas
ascending, takes `half_n = ⌊n/2⌋`, and returns 100 times the sum of the
smallest `half_n` elements divided by the total sum; in particular
`[1,2,3,4,5] ↦ 20` and `[1,1,1,1] ↦ 50`. -/
theorem calculate_pv50_spec (areas : List ℚ) (h : areas ≠ []) :
    calculate_pv50 areas
      = ((List.insertionSort (· ≤ ·) areas).take (areas.length / 2)).sum
          / areas.sum * 100
    ∧ calculate_pv50 [(1 : ℚ), 2, 3, 4, 5] = 20
    ∧ calculate_pv50 [(1 : ℚ), 1, 1, 1] = 50 := by
  have hs5 : List.insertionSort (· ≤ ·) [(1 : ℚ), 2, 3, 4, 5]
      = [(1 : ℚ), 2, 3, 4, 5] := by decide
  have hs4 : List.insertionSort (· ≤ ·) [(1 : ℚ), 1, 1, 1]
      = [(1 : ℚ), 1, 1, 1] := by decide
  refine ⟨?_, ?_, ?_⟩
  · rw [calculate_pv50_eq,
      (List.perm_insertionSort (· ≤ ·) areas).sum_eq]
  · simp only [calculate_pv50, hs5]
    norm_num
  · simp only [calculate_pv50, hs4]
    norm_num

/-- Witness for C2: the two concrete evaluations at `[1,2,3,4,5]`. -/
theorem calculate_pv50_spec_witness :
    calculate_pv50 [(1 : ℚ), 2, 3, 4, 5] = 20 :=
  (calculate_pv50_spec [(1 : ℚ), 2, 3, 4, 5] (by decide)).2.1

/-! ### Sorted-list index lemmas -/

lemma getD_eq_getElem_of_lt {l : List ℚ} {i : ℕ} (h : i < l.length) :
    l.getD i 0 = l[i] := by
  rw [List.getD_eq_getElem?_getD, List.getElem?_eq_getElem h, Option.getD_some]

lemma getD_mem_of_lt {l : List ℚ} {i : ℕ} (h : i < l.length) :
    l.getD i 0 ∈ l := by
  rw [getD_eq_getElem_of_lt h]
  exact List.getElem_mem h

lemma sorted_getD_mono {l : List ℚ} (hs : List.Sorted (· ≤ ·) l)
    {i j : ℕ} (hij : i ≤ j) (hj : j < l.length) :
    l.getD i 0 ≤ l.getD j 0 := by
  have hi : i < l.length := lt_of_le_of_lt hij hj
  rw [getD_eq_getElem_of_lt hi, getD_eq_getElem_of_lt hj]
  have hg := hs.rel_get_of_le (a := ⟨i, hi⟩) (b := ⟨j, hj⟩) (Fin.mk_le_mk.2 hij)
  simpa using hg

/-- The rank-weighted sum `Σ_{i<n} (2 i − n + 1)·f i` equals the sum of all
pairwise gaps `Σ_{j<i<n} (f i − f j)`. -/
lemma weight_sum_eq_pairs (f : ℕ → ℚ) :
    ∀ n : ℕ, ∑ i ∈ Finset.range n, (2 * (i : ℚ) - (n : ℚ) + 1) * f i
      = ∑ i ∈ Finset.range n, ∑ j ∈ Finset.range i, (f i - f j)
  | 0 => by simp
  | n + 1 => by
      have ih := weight_sum_eq_pairs f n
      have h1 : ∑ i ∈ Finset.range n, (2 * (i : ℚ) - ((n : ℚ) + 1) + 1) * f i
          = (∑ i ∈ Finset.range n, (2 * (i : ℚ) - (n : ℚ) + 1) * f i)
            - ∑ i ∈ Finset.range n, f i := by
        rw [← Finset.sum_sub_distrib]
        refine Finset.sum_congr rfl fun i _ => ?_
        ring
      have h2 : ∑ j ∈ Finset.range n, (f n - f j)
          = (n : ℚ) * f n - ∑ j ∈ Finset.range n, f j := by
        rw [Finset.sum_sub_distrib, Finset.sum_const, Finset.card_range, nsmul_eq_mul]
      rw [Finset.sum_range_succ, Finset.sum_range_succ]
      push_cast
      rw [h1, ih, h2]
      ring

lemma pairs_sum_nonneg {l : List ℚ} (hs : List.Sorted (· ≤ ·) l) :
    0 ≤ ∑ i ∈ Finset.range l.length, ∑ j ∈ Finset.range i,
        (l.getD i 0 - l.getD j 0) :=
  Finset.sum_nonneg fun i hi => Finset.sum_nonneg fun j hj =>
    sub_nonneg.2 (sorted_getD_mono hs (Finset.mem_range.1 hj).le (Finset.mem_range.1 hi))

/-- Claim C6: for every non-empty list of non-negative areas with positive
total, `calculate_gini` lies in `[0, 1]`; it is `0` when all areas are equal,
and it is `0` when `n = 1`. -/
theorem gini_bounds (areas : List ℚ) (h : areas ≠ [])
    (hnn : ∀ x ∈ areas, 0 ≤ x) (hpos : 0 < areas.sum) :
    (0 ≤ calculate_gini areas ∧ calculate_gini areas ≤ 1)
    ∧ (∀ c : ℚ, (∀ x ∈ areas, x = c) → calculate_gini areas = 0)
    ∧ (areas.length = 1 → calculate_gini areas = 0) := by
  set S := List.insertionSort (· ≤ ·) areas with hS
  have hperm : S.Perm areas := by rw [hS]; exact List.perm_insertionSort _ _
  have hsorted : List.Sorted (· ≤ ·) S := by rw [hS]; exact List.sorted_insertionSort _ _
  have hlen : S.length = areas.length := hperm.length_eq
  have hsum : S.sum = areas.sum := hperm.sum_eq
  have hg := calculate_gini_eq areas
  rw [← hS] at hg
  have hw : ∑ i ∈ Finset.range areas.length,
        (2 * ((i : ℚ) + 1) - (areas.length : ℚ) - 1) * S.getD i 0
      = ∑ i ∈ Finset.range areas.length,
          (2 * (i : ℚ) - (areas.length : ℚ) + 1) * S.getD i 0 :=
    Finset.sum_congr rfl fun i _ => by ring
  have hpairs : ∑ i ∈ Finset.range areas.length,
        (2 * ((i : ℚ) + 1) - (areas.length : ℚ) - 1) * S.getD i 0
      = ∑ i ∈ Finset.range areas.length, ∑ j ∈ Finset.range i,
          (S.getD i 0 - S.getD j 0) := by
    rw [hw]
    exact weight_sum_eq_pairs (fun i => S.getD i 0) areas.length
  have hT : ∑ i ∈ Finset.range areas.length, S.getD i 0 = areas.sum := by
    rw [← sum_eq_sum_getD_len S areas.length hlen, hsum]
  have hn1 : 1 ≤ areas.length := List.length_pos.2 h
  have hDpos : 0 < (areas.length : ℚ)
      * ∑ i ∈ Finset.range areas.length, S.getD i 0 := by
    rw [hT]
    exact mul_pos (by exact_mod_cast hn1) hpos
  have hNnonneg : 0 ≤ ∑ i ∈ Finset.range areas.length, ∑ j ∈ Finset.range i,
      (S.getD i 0 - S.getD j 0) := by
    rw [← hlen]
    exact pairs_sum_nonneg hsorted
  have hgetDnn : ∀ i ∈ Finset.range areas.length, 0 ≤ S.getD i 0 := by
    intro i hi
    have hm : S.getD i 0 ∈ S :=
      getD_mem_of_lt (by rw [hlen]; exact Finset.mem_range.1 hi)
    exact hnn _ (hperm.mem_iff.1 hm)
  refine ⟨⟨?_, ?_⟩, ?_, ?_⟩
  · rw [hg, hpairs]
    exact div_nonneg hNnonneg hDpos.le
  · rw [hg, div_le_one hDpos]
    calc ∑ i ∈ Finset.range areas.length,
          (2 * ((i : ℚ) + 1) - (areas.length : ℚ) - 1) * S.getD i 0
        ≤ ∑ i ∈ Finset.range areas.length, (areas.length : ℚ) * S.getD i 0 := by
          refine Finset.sum_le_sum fun i hi => ?_
          have hi' : (i : ℚ) + 1 ≤ (areas.length : ℚ) := by
            exact_mod_cast Nat.succ_le_of_lt (Finset.mem_range.1 hi)
          have hwle : 2 * ((i : ℚ) + 1) - (areas.length : ℚ) - 1
              ≤ (areas.length : ℚ) := by linarith
          exact mul_le_mul_of_nonneg_right hwle (hgetDnn i hi)
      _ = (areas.length : ℚ) * ∑ i ∈ Finset.range areas.length, S.getD i 0 :=
          (Finset.mul_sum _ _ _).symm
  · intro c hc
    have hzero : ∑ i ∈ Finset.range areas.length, ∑ j ∈ Finset.range i,
        (S.getD i 0 - S.getD j 0) = 0 := by
      refine Finset.sum_eq_zero fun i hi => Finset.sum_eq_zero fun j hj => ?_
      have hi' : i < S.length := by rw [hlen]; exact Finset.mem_range.1 hi
      have hj' : j < S.length := lt_trans (Finset.mem_range.1 hj) hi'
      have e1 : S.getD i 0 = c := hc _ (hperm.mem_iff.1 (getD_mem_of_lt hi'))
      have e2 : S.getD j 0 = c := hc _ (hperm.mem_iff.1 (getD_mem_of_lt hj'))
      rw [e1, e2, sub_self]
    rw [hg, hpairs, hzero, zero_div]
  · intro h1
    have hzero : ∑ i ∈ Finset.range areas.length, ∑ j ∈ Finset.range i,
        (S.getD i 0 - S.getD j 0) = 0 := by
      rw [h1]
      simp
    rw [hg, hpairs, hzero, zero_div]

/-- Witness for C6: bounds at `[1,2,3,4]` and the all-equal case `[4,4,4,4]`. -/
theorem gini_bounds_witness :
    (0 ≤ calculate_gini [(1 : ℚ), 2, 3, 4] ∧ calculate_gini [(1 : ℚ), 2, 3, 4] ≤ 1)
    ∧ calculate_gini [(4 : ℚ), 4, 4, 4] = 0 :=
  ⟨(gini_bounds [(1 : ℚ), 2, 3, 4] (by decide) (by decide) (by norm_num)).1,
   (gini_bounds [(4 : ℚ), 4, 4, 4] (by decide) (by decide) (by norm_num)).2.1
     4 (by decide)⟩

/-- Claim C10: for every non-empty list of strictly positive areas,
`calculate_pv50` is at most `50`: the smallest `⌊n/2⌋` elements of the
ascending-sorted list contribute at most half of the total sum. -/
theorem calculate_pv50_le_fifty (areas : List ℚ) (h : areas ≠ [])
    (hpos : ∀ x ∈ areas, 0 < x) :
    calculate_pv50 areas ≤ 50 := by
  set S := List.insertionSort (· ≤ ·) areas with hS
  have hperm : S.Perm areas := by rw [hS]; exact List.perm_insertionSort _ _
  have hsorted : List.Sorted (· ≤ ·) S := by rw [hS]; exact List.sorted_insertionSort _ _
  have hSne : S ≠ [] := by
    intro he
    exact h (List.Perm.eq_nil (he ▸ hperm.symm))
  have hSpos : ∀ x ∈ S, 0 < x := fun x hx => hpos x (hperm.mem_iff.1 hx)
  have hTpos : 0 < S.sum := List.sum_pos S hSpos hSne
  set n := S.length with hn
  set k := n / 2 with hk
  have htake_len : (S.take k).length = k := by
    rw [List.length_take]
    omega
  have htake : (S.take k).sum = ∑ i ∈ Finset.range k, S.getD i 0 := by
    rw [sum_eq_sum_getD_len _ _ htake_len]
    refine Finset.sum_congr rfl fun i hi => ?_
    rw [List.getD_eq_getElem?_getD, List.getD_eq_getElem?_getD,
      List.getElem?_take_of_lt (Finset.mem_range.1 hi)]
  have hdrop_len : (S.drop k).length = n - k := by
    rw [List.length_drop]
  have hdrop : (S.drop k).sum = ∑ i ∈ Finset.range (n - k), S.getD (k + i) 0 := by
    rw [sum_eq_sum_getD_len _ _ hdrop_len]
    refine Finset.sum_congr rfl fun i hi => ?_
    rw [List.getD_eq_getElem?_getD, List.getD_eq_getElem?_getD, List.getElem?_drop]
  have hsplit : S.sum = (S.take k).sum + (S.drop k).sum := by
    rw [← List.sum_append, List.take_append_drop]
  have hstep1 : ∑ i ∈ Finset.range k, S.getD i 0
      ≤ ∑ i ∈ Finset.range k, S.getD (k + i) 0 := by
    refine Finset.sum_le_sum fun i hi => ?_
    have hik : i < k := Finset.mem_range.1 hi
    exact sorted_getD_mono hsorted (Nat.le_add_left i k) (by omega)
  have hstep2 : ∑ i ∈ Finset.range k, S.getD (k + i) 0
      ≤ ∑ i ∈ Finset.range (n - k), S.getD (k + i) 0 := by
    refine Finset.sum_le_sum_of_subset_of_nonneg
      (Finset.range_subset.2 (by omega)) ?_
    intro i hi _
    have hin : k + i < n := by
      have := Finset.mem_range.1 hi
      omega
    exact (hSpos _ (getD_mem_of_lt (by omega))).le
  have hAB : (S.take k).sum ≤ (S.drop k).sum := by
    rw [htake, hdrop]
    exact le_trans hstep1 hstep2
  have hval : calculate_pv50 areas = (S.take k).sum / S.sum * 100 := rfl
  rw [hval, div_mul_eq_mul_div, div_le_iff₀ hTpos]
  linarith [hAB, hsplit]

/-- Witness for C10: `pv50 [1,2,3,4,5] ≤ 50`. -/
theorem calculate_pv50_le_fifty_witness :
    calculate_pv50 [(1 : ℚ), 2, 3, 4, 5] ≤ 50 :=
  calculate_pv50_le_fifty [(1 : ℚ), 2, 3, 4, 5] (by decide) (by decide)

/-! ### Geometry Projector (`main`, lines 80-90) -/

/-- A 6-parameter affine transform, as read from the raster
(`src.transform`). -/
structure AffineT where
  a : ℚ
  b : ℚ
  c : ℚ
  d : ℚ
  e : ℚ
  f : ℚ

/-- Apply a rasterio-style affine transform to a pixel coordinate pair:
`transform * (x, y) = (a·x + b·y + c, d·x + e·y + f)`. -/
def applyAffine (t : AffineT) (x y : ℚ) : ℚ × ℚ :=
  (t.a * x + t.b * y + t.c, t.d * x + t.e * y + t.f)

/-- The vertex ring produced by `shapely.geometry.box(minx, miny, maxx, maxy)`:
the four corners `[(maxx, miny), (maxx, maxy), (minx, maxy), (minx, miny)]`,
with no normalisation of the argument order. -/
def boxCorners (minx miny maxx maxy : ℚ) : List (ℚ × ℚ) :=
  [(maxx, miny), (maxx, maxy), (minx, maxy), (minx, miny)]

/-- Lines 80-90 of `main`: apply the transform identically to both diagonal
pixel corners, name the results `(lon_min, lat_max)` and `(lon_max, lat_min)`,
and build `box(lon_min, lat_min, lon_max, lat_max)`. -/
def projectBox (t : AffineT) (x1 y1 x2 y2 : ℚ) : List (ℚ × ℚ) :=
  let p := applyAffine t x1 y1
  let q := applyAffine t x2 y2
  boxCorners p.1 q.2 q.1 p.2

/-- Claim C3: for every pixel bounding box and every affine transform of
either y-axis sign convention, the projector applies the transform identically
to the two diagonal corners, and the resulting polygon is the proper
axis-aligned rectangle over the per-axis minima and maxima of the two
transformed points: its vertex set is exactly the corner set of that
rectangle. -/
theorem projectBox_minmax_rect (t : AffineT) (x1 y1 x2 y2 : ℚ) (v : ℚ × ℚ) :
    v ∈ projectBox t x1 y1 x2 y2
      ↔ v ∈ boxCorners
          (min (applyAffine t x1 y1).1 (applyAffine t x2 y2).1)
          (min (applyAffine t x1 y1).2 (applyAffine t x2 y2).2)
          (max (applyAffine t x1 y1).1 (applyAffine t x2 y2).1)
          (max (applyAffine t x1 y1).2 (applyAffine t x2 y2).2) := by
  simp only [projectBox, boxCorners, List.mem_cons, List.not_mem_nil, or_false]
  rcases le_total (applyAffine t x1 y1).1 (applyAffine t x2 y2).1 with h1 | h1 <;>
    rcases le_total (applyAffine t x1 y1).2 (applyAffine t x2 y2).2 with h2 | h2
  · rw [min_eq_left h1, max_eq_right h1, min_eq_left h2, max_eq_right h2] <;> tauto
  · rw [min_eq_left h1, max_eq_right h1, min_eq_right h2, max_eq_left h2] <;> tauto
  · rw [min_eq_right h1, max_eq_left h1, min_eq_left h2, max_eq_right h2] <;> tauto
  · rw [min_eq_right h1, max_eq_left h1, min_eq_right h2, max_eq_left h2] <;> tauto

/-! ### Coverage Estimator (`main`, line 113) -/

/-- `np.sum(np.where(band1 + band2 + band3 > 0, 1, 0))`: the number of pixels
whose three band values sum to a positive number.  The image is a list of
rows of `(band1, band2, band3)` pixels. -/
def validCount (img : List (List (ℚ × ℚ × ℚ))) : ℕ :=
  (img.map (fun row =>
    (row.map (fun p => if 0 < p.1 + p.2.1 + p.2.2 then (1 : ℕ) else 0)).sum)).sum

/-- Line 113 of `main`: `total_area_ha = valid_count * gsd² / 10000`. -/
def total_area_ha (img : List (List (ℚ × ℚ × ℚ))) (gsd : ℚ) : ℚ :=
  ((validCount img : ℚ) * gsd ^ 2) / 10000

lemma row_sum_eq_countP (row : List (ℚ × ℚ × ℚ)) :
    (row.map (fun p => if 0 < p.1 + p.2.1 + p.2.2 then (1 : ℕ) else 0)).sum
      = row.countP (fun p => decide (0 < p.1 + p.2.1 + p.2.2)) := by
  induction row with
  | nil => rfl
  | cons p t ih =>
      simp only [List.map_cons, List.sum_cons, List.countP_cons, ih]
      by_cases hp : 0 < p.1 + p.2.1 + p.2.2 <;> simp [hp] <;> omega

lemma validCount_eq_countP (img : List (List (ℚ × ℚ × ℚ))) :
    validCount img
      = img.flatten.countP (fun p => decide (0 < p.1 + p.2.1 + p.2.2)) := by
  induction img with
  | nil => rfl
  | cons row rest ih =>
      have hstep : validCount (row :: rest)
          = (row.map (fun p => if 0 < p.1 + p.2.1 + p.2.2 then (1 : ℕ) else 0)).sum
            + validCount rest := by
        simp [validCount]
      rw [hstep, row_sum_eq_countP, ih, List.flatten_cons, List.countP_append]

/-- Claim C4: a pixel is counted as valid exactly when its three band values
sum to a positive number; `total_area_ha` equals
`validCount · gsd² / 10000`; and an all-zero pixel array of any shape yields
`total_area_ha = 0`. -/
theorem total_area_ha_spec (img : List (List (ℚ × ℚ × ℚ))) (gsd : ℚ)
    (hg : 0 < gsd) :
    validCount img
        = img.flatten.countP (fun p => decide (0 < p.1 + p.2.1 + p.2.2))
    ∧ total_area_ha img gsd = ((validCount img : ℚ) * gsd ^ 2) / 10000
    ∧ ((∀ row ∈ img, ∀ p ∈ row, p = ((0 : ℚ), (0 : ℚ), (0 : ℚ)))
        → total_area_ha img gsd = 0) := by
  refine ⟨validCount_eq_countP img, rfl, fun hz => ?_⟩
  have h0 : validCount img = 0 := by
    simp only [validCount]
    refine List.sum_eq_zero fun x hx => ?_
    obtain ⟨row, hrow, rfl⟩ := List.mem_map.1 hx
    refine List.sum_eq_zero fun y hy => ?_
    obtain ⟨p, hp, rfl⟩ := List.mem_map.1 hy
    rw [hz row hrow p hp]
    norm_num
  simp only [total_area_ha, h0]
  norm_num

/-- Witness for C4 at a 2×1 all-zero image with `gsd = 1/2`. -/
theorem total_area_ha_spec_witness :
    (0 : ℚ) < 1 / 2
    ∧ total_area_ha [[((0 : ℚ), (0 : ℚ), (0 : ℚ))], [((0 : ℚ), (0 : ℚ), (0 : ℚ))]]
        (1 / 2) = 0 :=
  ⟨by norm_num,
   (total_area_ha_spec [[((0 : ℚ), (0 : ℚ), (0 : ℚ))], [((0 : ℚ), (0 : ℚ), (0 : ℚ))]]
      (1 / 2) (by norm_num)).2.2 (by decide)⟩

/-! ### Area Normalizer (`main`, lines 103-110) -/

/-- A detection after reprojection, with planar area computed: one row of the
GeoDataFrame after line 107 (`gdf['area'] = gdf.geometry.area`). -/
structure GeoDet where
  cls : ℤ
  confidence : ℚ
  area : ℚ
deriving DecidableEq

/-- Line 110 of `main`: `gdf = gdf[gdf.geometry.area > 1]`. -/
def filterByArea (dets : List GeoDet) : List GeoDet :=
  dets.filter (fun d => 1 < d.area)

/-- Claim C7: the area filter drops exactly the detections whose area is
≤ 1 m², and the survivors are the original records (class and confidence
attributes unchanged), in their original order. -/
theorem filterByArea_spec (dets : List GeoDet) (d : GeoDet) :
    (d ∈ filterByArea dets ↔ d ∈ dets ∧ ¬ (d.area ≤ 1))
    ∧ (filterByArea dets).Sublist dets := by
  constructor
  · simp [filterByArea, List.mem_filter, not_le]
  · exact List.filter_sublist _

/-- EPSG code of a coordinate reference system (abstract). -/
abbrev CRS := ℕ

/-- A projected detection before area computation: one row of the
GeoDataFrame built on line 98 (polygon in the source CRS, class,
confidence). -/
structure ProjDet where
  cls : ℤ
  confidence : ℚ
  poly : List (ℚ × ℚ)

/-- Lines 103-110 of `main` with the geopandas collaborators abstracted:
`estimate_utm_crs` is fallible (the real one raises when no UTM zone can be
determined), `reproject` turns one row into a row of the chosen CRS with its
planar area.  The code calls `estimate_utm_crs` unconditionally — it has no
emptiness check. -/
def normalize_detections (estimate_utm_crs : List ProjDet → Except String CRS)
    (reproject : CRS → ProjDet → GeoDet) (gdf : List ProjDet) :
    Except String (List GeoDet) := do
  let estimated_utm ← estimate_utm_crs gdf
  let projected := gdf.map (reproject estimated_utm)
  pure (filterByArea projected)

/-- `estimate_utm_crs` as geopandas documents it on degenerate input: with no
geometries the total bounds are NaN and no UTM zone can be determined, so it
raises; on non-empty input it returns some zone. -/
def estimate_utm_crs_empty_raises : List ProjDet → Except String CRS :=
  fun gdf =>
    if gdf.isEmpty then Except.error "Unable to determine UTM CRS"
    else Except.ok 32722

/-- A trivial reprojection collaborator (its behaviour is irrelevant on empty
input). -/
def reproject_zero : CRS → ProjDet → GeoDet :=
  fun _ d => ⟨d.cls, d.confidence, 0⟩

/-- Claim C5 fails on the code: the normalizer stage does not short-circuit on
an empty detection set.  It invokes the CRS estimator unconditionally, so its
result on `[]` is exactly the estimator's answer there — and with an estimator
that fails on empty input (as the real `estimate_utm_crs` does) the stage
propagates the error instead of returning an empty result. -/
theorem normalize_detections_empty_attempts_estimation :
    (∀ (est : List ProjDet → Except String CRS)
        (rep : CRS → ProjDet → GeoDet),
      normalize_detections est rep []
        = Except.map (fun _ => ([] : List GeoDet)) (est []))
    ∧ normalize_detections estimate_utm_crs_empty_raises reproject_zero []
        = Except.error "Unable to determine UTM CRS" := by
  constructor
  · intro est rep
    cases hc : est [] <;>
      simp [normalize_detections, Except.map, hc, filterByArea, bind, Except.bind,
        pure, Except.pure]
  · rfl

/-! ### Distribution metrics: standard deviation (`main`, line 120) -/

/-- Sample variance with the pandas default `ddof = 1` denominator `n − 1`. -/
def sample_variance (areas : List ℚ) : ℚ :=
  let n : ℚ := (areas.length : ℚ)
  let mean := areas.sum / n
  ((areas.map (fun x => (x - mean) ^ 2)).sum) / (n - 1)

/-- `pandas.Series.std()` with the default `ddof = 1`: the square root of the
sample variance. -/
noncomputable def sample_std (areas : List ℚ) : ℝ :=
  Real.sqrt ((sample_variance areas : ℚ) : ℝ)

/-- Line 120 of `main`:
`desvio_padrao = gdf['area'].std() if len(gdf) > 1 else 0`. -/
noncomputable def desvio_padrao (areas : List ℚ) : ℝ :=
  if 1 < areas.length then sample_std areas else 0

/-- Claim C8: `desvio_padrao` is exactly `0` when fewer than 2 areas remain
(including the empty case); otherwise it is the sample standard deviation
with the `n − 1` denominator — the non-negative square root of
`Σ (x − mean)² / (n − 1)`. -/
theorem desvio_padrao_spec (areas : List ℚ) :
    (areas.length < 2 → desvio_padrao areas = 0)
    ∧ (2 ≤ areas.length →
        0 ≤ desvio_padrao areas
        ∧ desvio_padrao areas ^ 2
            = (((areas.map
                  (fun x => (x - areas.sum / (areas.length : ℚ)) ^ 2)).sum
                / ((areas.length : ℚ) - 1) : ℚ) : ℝ)) := by
  constructor
  · intro hlt
    simp only [desvio_padrao]
    rw [if_neg (by omega)]
  · intro hge
    have hif : desvio_padrao areas = sample_std areas := by
      simp only [desvio_padrao]
      rw [if_pos (by omega)]
    have hvar_nonneg : 0 ≤ sample_variance areas := by
      have hnum : 0 ≤ (areas.map
          (fun x => (x - areas.sum / (areas.length : ℚ)) ^ 2)).sum :=
        List.sum_nonneg fun x hx => by
          obtain ⟨y, hy, rfl⟩ := List.mem_map.1 hx
          positivity
      have hden : 0 ≤ (areas.length : ℚ) - 1 := by
        have h2 : (2 : ℚ) ≤ (areas.length : ℚ) := by exact_mod_cast hge
        linarith
      exact div_nonneg hnum hden
    refine ⟨by rw [hif]; exact Real.sqrt_nonneg _, ?_⟩
    rw [hif, sample_std, Real.sq_sqrt (by exact_mod_cast hvar_nonneg)]
    rfl

/-- Witness for C8: the degenerate cases `[5]` and `[]`. -/
theorem desvio_padrao_spec_witness :
    desvio_padrao [(5 : ℚ)] = 0 ∧ desvio_padrao ([] : List ℚ) = 0 :=
  ⟨(desvio_padrao_spec [(5 : ℚ)]).1 (by decide),
   (desvio_padrao_spec ([] : List ℚ)).1 (by decide)⟩

/-! ### Pipeline Orchestrator: the metrics record (`main`, lines 113-129) -/

/-- The final metrics dictionary of `main` (lines 122-129). -/
structure MetricsRecord where
  total_detections : ℕ
  total_area_ha : ℚ
  detections_per_ha : ℚ
  desvio_padrao : ℝ
  gini : ℚ
  pv50 : ℚ

/-- Lines 109-129 of `main`: filter the detections by area, estimate the
coverage, and assemble the metrics record. -/
noncomputable def buildMetrics (dets : List GeoDet)
    (img : List (List (ℚ × ℚ × ℚ))) (gsd : ℚ) : MetricsRecord :=
  let gdf := filterByArea dets
  let ta := total_area_ha img gsd
  let td := gdf.length
  { total_detections := td
    total_area_ha := ta
    detections_per_ha := if 0 < ta then (td : ℚ) / ta else 0
    desvio_padrao := desvio_padrao (gdf.map GeoDet.area)
    gini := calculate_gini (gdf.map GeoDet.area)
    pv50 := calculate_pv50 (gdf.map GeoDet.area) }

/-- Claim C9: `total_detections` in the final record is the count after
area-based filtering (not the raw detector count), and `detections_per_ha`
equals `total_detections / total_area_ha` when `total_area_ha > 0` and `0`
when `total_area_ha = 0`. -/
theorem buildMetrics_spec (dets : List GeoDet)
    (img : List (List (ℚ × ℚ × ℚ))) (gsd : ℚ) :
    (buildMetrics dets img gsd).total_detections = (filterByArea dets).length
    ∧ (0 < total_area_ha img gsd →
        (buildMetrics dets img gsd).detections_per_ha
          = ((filterByArea dets).length : ℚ) / total_area_ha img gsd)
    ∧ (total_area_ha img gsd = 0 →
        (buildMetrics dets img gsd).detections_per_ha = 0) := by
  refine ⟨rfl, fun hpos => ?_, fun hzero => ?_⟩
  · simp only [buildMetrics]
    rw [if_pos hpos]
  · simp only [buildMetrics]
    rw [if_neg (by rw [hzero]; exact lt_irrefl 0)]

/-- Witness for C9: one surviving detection on a 1-valid-pixel image with
`gsd = 100`, so that the coverage is exactly one hectare. -/
theorem buildMetrics_spec_witness :
    (0 : ℚ) < total_area_ha [[((1 : ℚ), (0 : ℚ), (0 : ℚ))]] 100
    ∧ (buildMetrics [(⟨0, 9 / 10, 2⟩ : GeoDet)]
          [[((1 : ℚ), (0 : ℚ), (0 : ℚ))]] 100).detections_per_ha
        = ((filterByArea [(⟨0, 9 / 10, 2⟩ : GeoDet)]).length : ℚ)
            / total_area_ha [[((1 : ℚ), (0 : ℚ), (0 : ℚ))]] 100 := by
  have hpos : (0 : ℚ) < total_area_ha [[((1 : ℚ), (0 : ℚ), (0 : ℚ))]] 100 := by
    norm_num [total_area_ha, validCount]
  exact ⟨hpos, (buildMetrics_spec [(⟨0, 9 / 10, 2⟩ : GeoDet)]
    [[((1 : ℚ), (0 : ℚ), (0 : ℚ))]] 100).2.1 hpos⟩

end DetectEucalyptus
